import Mathlib

/-!
Verification of the chunked transcription and text-structuring pipeline of the
longani-transcricao-audio repository.

Texts (JavaScript strings) are embedded as `List Char`; audio sample buffers as
polymorphic lists; machine numbers as `Nat`/`Int`/`Rat`.  Each definition below
is translated from a named function of the source; doc comments cite the file.
-/

set_option maxHeartbeats 1000000

/-- JavaScript whitespace (the set matched by `\s`, `String.prototype.trim`,
and `String.prototype.split(/\s+/)`). -/
def isWsB (c : Char) : Bool :=
  c == ' ' || c == '\t' || c == '\n' || c == '\r' ||
  c.toNat == 11 || c.toNat == 12 || c.toNat == 0xA0 || c.toNat == 0x1680 ||
  (0x2000 ≤ c.toNat && c.toNat ≤ 0x200A) || c.toNat == 0x2028 || c.toNat == 0x2029 ||
  c.toNat == 0x202F || c.toNat == 0x205F || c.toNat == 0x3000 || c.toNat == 0xFEFF

/-- JavaScript `String.prototype.trim`: strip leading and trailing whitespace. -/
def trimChars (s : List Char) : List Char :=
  ((s.dropWhile isWsB).reverse.dropWhile isWsB).reverse

/-- JavaScript `s.split(' ')`: split on every single space character, keeping
empty pieces (`"".split(' ') = [""]`). -/
def splitSp : List Char → List (List Char)
  | [] => [[]]
  | c :: rest =>
    let r := splitSp rest
    if c = ' ' then [] :: r else (c :: r.headI) :: r.tail

/-- JavaScript `arr.join(' ')` on a list of word strings. -/
def joinSp : List (List Char) → List Char
  | [] => []
  | [w] => w
  | w :: ws => w ++ ' ' :: joinSp ws

theorem splitSp_ne_nil (s : List Char) : splitSp s ≠ [] := by
  cases s with
  | nil => simp [splitSp]
  | cons c rest =>
    simp only [splitSp]
    split <;> simp

/-- `join(' ')` undoes `split(' ')`. -/
theorem joinSp_splitSp (s : List Char) : joinSp (splitSp s) = s := by
  induction s with
  | nil => rfl
  | cons c rest ih =>
    simp only [splitSp]
    rcases hr : splitSp rest with _ | ⟨h, t⟩
    · exact absurd hr (splitSp_ne_nil rest)
    · rw [hr] at ih
      split
      · subst c
        cases t with
        | nil => simpa [joinSp] using ih
        | cons x xs => simpa [joinSp] using ih
      · cases t with
        | nil => simpa [joinSp, List.headI] using ih
        | cons x xs => simpa [joinSp, List.headI] using ih

/-- JavaScript `s.split(re)` for a one-character-class regex with `+`:
splits on maximal runs of characters satisfying `p`, keeping the (possibly
empty) leading and trailing pieces, collapsing each run to one separator. -/
def splitRuns (p : Char → Bool) : List Char → List (List Char)
  | [] => [[]]
  | c :: rest =>
    let r := splitRuns p rest
    if p c then
      match rest with
      | [] => [] :: r
      | d :: _ => if p d then r else [] :: r
    else (c :: r.headI) :: r.tail

/-- Word count as in the source: `text.split(/\s+/).filter(w => w.length > 0).length`. -/
def countWords (s : List Char) : Nat :=
  ((splitRuns isWsB s).filter (fun w => w.length > 0)).length

section AudioSplitter

variable {α : Type _}

/-- The chunk loop of `splitAudioFile` (src/src/utils/audioSplitter.ts):
`for (let start = 0; start < totalSamples; start += chunkSamples)` emit the
samples `[start, min (start+chunkSamples) total)`.  `fuel` bounds the number of
iterations; the wrapper supplies `samples.length`, which always suffices. -/
def splitAudioGo (chunkSamples : Nat) (samples : List α) : Nat → Nat → List (List α)
  | 0, _ => []
  | fuel + 1, start =>
    if start < samples.length ∧ 0 < chunkSamples then
      ((samples.drop start).take chunkSamples) :: splitAudioGo chunkSamples samples fuel (start + chunkSamples)
    else []

/-- `splitAudioFile(file, maxDurationSeconds)` of src/src/utils/audioSplitter.ts,
projected to the per-channel sample content of the emitted chunks
(`chunkSamples = maxDurationSeconds * sampleRate`; the WAV re-encoding is
modelled separately by `encodeSample`/`wavBufferSize`). -/
def splitAudioFile (chunkSamples : Nat) (samples : List α) : List (List α) :=
  splitAudioGo chunkSamples samples samples.length 0

theorem splitAudioGo_join (chunkSamples : Nat) (samples : List α) (hc : 0 < chunkSamples) :
    ∀ fuel start, samples.length ≤ fuel + start →
      (splitAudioGo chunkSamples samples fuel start).flatten = samples.drop start := by
  intro fuel
  induction fuel with
  | zero =>
    intro start h
    simp only [splitAudioGo, List.flatten_nil]
    exact (List.drop_eq_nil_of_le (by omega)).symm
  | succ n ih =>
    intro start h
    simp only [splitAudioGo]
    split
    · next hlt =>
      rw [List.flatten_cons, ih (start + chunkSamples) (by omega), ← List.drop_drop]
      exact List.take_append_drop chunkSamples (samples.drop start)
    · next hge =>
      rw [not_and_or] at hge
      rcases hge with hge | hge
      · simp only [List.flatten_nil]
        exact (List.drop_eq_nil_of_le (by omega)).symm
      · omega

/-- Claim C5: if the audio fits in one chunk the splitter emits exactly one
segment equal to the whole input, and in every case the emitted segments
partition the input samples — the final, shorter segment is emitted,
neither dropped nor padded. -/
theorem splitAudioFile_single_and_exact (chunkSamples : Nat) (samples : List α)
    (hc : 0 < chunkSamples) :
    (samples ≠ [] → samples.length ≤ chunkSamples → splitAudioFile chunkSamples samples = [samples])
    ∧ (splitAudioFile chunkSamples samples).flatten = samples := by
  constructor
  · intro hne hle
    have hlen : 0 < samples.length := List.length_pos.mpr hne
    unfold splitAudioFile
    rcases hfuel : samples.length with _ | n
    · omega
    · simp only [splitAudioGo]
      rw [if_pos ⟨by omega, hc⟩]
      have h1 : (samples.drop 0).take chunkSamples = samples := by
        rw [List.drop_zero]
        exact List.take_of_length_le (by omega)
      rw [h1]
      have h2 : splitAudioGo chunkSamples samples n (0 + chunkSamples) = [] := by
        cases n with
        | zero => rfl
        | succ m =>
          simp only [splitAudioGo]
          rw [if_neg]
          intro hcontra
          omega
      rw [h2]
  · have := splitAudioGo_join chunkSamples samples hc samples.length 0 (by omega)
    simpa [splitAudioFile] using this

/-- Witness for C5 at a concrete input. -/
theorem splitAudioFile_single_and_exact_witness :
    splitAudioFile 4 ([1, 2, 3] : List Nat) = [[1, 2, 3]]
    ∧ (splitAudioFile 4 ([1, 2, 3] : List Nat)).flatten = [1, 2, 3] :=
  ⟨(splitAudioFile_single_and_exact 4 [1, 2, 3] (by decide)).1 (by decide) (by decide),
   (splitAudioFile_single_and_exact 4 [1, 2, 3] (by decide)).2⟩

end AudioSplitter

section ChunkWindows

/-- Segment duration constant `CHUNK_DURATION = 30` of
src/src/hooks/useChunkedTranscription.ts. -/
def CHUNK_DURATION : Nat := 30

/-- Overlap constant `OVERLAP_DURATION = 2` of
src/src/hooks/useChunkedTranscription.ts. -/
def OVERLAP_DURATION : Nat := 2

/-- The chunk loop of `createAudioChunks` (src/src/hooks/useChunkedTranscription.ts):
`while (start < totalSamples)` emit the window
`[start, min (start + chunkSamples) totalSamples)` and advance by
`step = chunkSamples - overlapSamples`.  `fuel` bounds the iterations; the
wrapper passes `totalSamples`, which always suffices when `0 < step`. -/
def chunkWindowsGo (chunkSamples step totalSamples : Nat) : Nat → Nat → List (Nat × Nat)
  | 0, _ => []
  | fuel + 1, start =>
    if start < totalSamples ∧ 0 < step then
      (start, min (start + chunkSamples) totalSamples)
        :: chunkWindowsGo chunkSamples step totalSamples fuel (start + step)
    else []

/-- Sample windows `[startSample, endSample)` of the chunks emitted by
`createAudioChunks`, parameterised by chunk and overlap sizes in samples
(the source instantiates them with `CHUNK_DURATION * sampleRate` and
`OVERLAP_DURATION * sampleRate`). -/
def chunkWindows (chunkSamples overlapSamples totalSamples : Nat) : List (Nat × Nat) :=
  chunkWindowsGo chunkSamples (chunkSamples - overlapSamples) totalSamples totalSamples 0

/-- `createAudioChunks` with the source's constants: 30-second chunks with
2-second overlap. -/
def createAudioChunksWindows (sampleRate totalSamples : Nat) : List (Nat × Nat) :=
  chunkWindows (CHUNK_DURATION * sampleRate) (OVERLAP_DURATION * sampleRate) totalSamples

theorem chunkWindowsGo_getD (c s T : Nat) :
    ∀ fuel start i, i < (chunkWindowsGo c s T fuel start).length →
      (chunkWindowsGo c s T fuel start).getD i (0, 0)
        = (start + i * s, min (start + i * s + c) T) := by
  intro fuel
  induction fuel with
  | zero => intro start i h; simp [chunkWindowsGo] at h
  | succ n ih =>
    intro start i h
    simp only [chunkWindowsGo] at h ⊢
    split at h
    · next hcond =>
      rw [if_pos hcond]
      cases i with
      | zero => simp
      | succ j =>
        simp only [List.getD_cons_succ]
        have hj : j < (chunkWindowsGo c s T n (start + s)).length := by
          simpa using h
        rw [ih (start + s) j hj]
        have harith : start + s + j * s = start + (j + 1) * s := by ring
        rw [harith]
    · simp at h

theorem chunkWindowsGo_coverage (c s T : Nat) (hs : 0 < s) (hsc : s ≤ c) :
    ∀ fuel start t, T ≤ fuel + start → start ≤ t → t < T →
      ∃ w ∈ chunkWindowsGo c s T fuel start, w.1 ≤ t ∧ t < w.2 := by
  intro fuel
  induction fuel with
  | zero => intro start t hf h1 h2; omega
  | succ n ih =>
    intro start t hf h1 h2
    have hstart : start < T := by omega
    simp only [chunkWindowsGo, if_pos (And.intro hstart hs)]
    by_cases hcase : t < min (start + c) T
    · exact ⟨(start, min (start + c) T), List.mem_cons_self _ _, h1, hcase⟩
    · have ht : start + c ≤ t := by omega
      obtain ⟨w, hmem, hw⟩ := ih (start + s) t (by omega) (by omega) h2
      exact ⟨w, List.mem_cons_of_mem _ hmem, hw⟩

/-- Claim C4 (amended): for any total length, chunk size `c` and overlap
`o < c` (in samples), the emitted windows cover `[0, totalSamples)` with no
gaps, and every pair of consecutive windows whose earlier window is full-length
(not clipped at the end of the audio) overlaps by exactly `o` samples. -/
theorem chunkWindows_coverage_and_overlap (c o T : Nat) (ho : o < c) :
    (∀ t, t < T → ∃ w ∈ chunkWindows c o T, w.1 ≤ t ∧ t < w.2)
    ∧ (∀ i, i + 1 < (chunkWindows c o T).length →
        ((chunkWindows c o T).getD i (0, 0)).1 + c ≤ T →
        ((chunkWindows c o T).getD i (0, 0)).2
          - ((chunkWindows c o T).getD (i + 1) (0, 0)).1 = o) := by
  constructor
  · intro t ht
    exact chunkWindowsGo_coverage c (c - o) T (by omega) (by omega) T 0 t (by omega) (by omega) ht
  · intro i hlen hfull
    unfold chunkWindows at *
    rw [chunkWindowsGo_getD c (c - o) T T 0 i (by omega)] at hfull ⊢
    rw [chunkWindowsGo_getD c (c - o) T T 0 (i + 1) hlen]
    simp only [Nat.zero_add] at *
    have : min (i * (c - o) + c) T = i * (c - o) + c := by omega
    rw [this]
    have hstep : (i + 1) * (c - o) = i * (c - o) + (c - o) := by ring
    omega

/-- Witness for C4 (amended) at a concrete input: 30-sample chunks, 2-sample
overlap, 65 total samples; the sample at offset 64 is covered by some window. -/
theorem chunkWindows_coverage_and_overlap_witness :
    ∃ w ∈ chunkWindows 30 2 65, w.1 ≤ 64 ∧ 64 < w.2 :=
  (chunkWindows_coverage_and_overlap 30 2 65 (by decide)).1 64 (by decide)

/-- Counterexample to claim C4 as stated: with chunk size 4, overlap 3
(`0 ≤ O < S`) and 3 total samples, the emitted windows are
`[(0,3), (1,3), (2,3)]`; the consecutive pair `(0,3), (1,3)` — neither member
of which is the final segment — overlaps by `3 - 1 = 2` samples, not the
configured 3.  So "every pair of consecutive segments overlaps by exactly O
seconds, except possibly the final shorter segment" fails. -/
theorem chunkWindows_overlap_counterexample :
    chunkWindows 4 3 3 = [(0, 3), (1, 3), (2, 3)]
    ∧ (3 : Nat) - 1 ≠ 3
    ∧ 1 < (chunkWindows 4 3 3).length - 1 := by
  refine ⟨by decide, by decide, by decide⟩

end ChunkWindows

section Stitcher

/-- `finalTranscript.split(' ').slice(-3)`: the last (up to) three
space-separated words of the accumulated transcript
(src/src/hooks/useChunkedTranscription.ts, line 162). -/
def lastWindow (acc : List Char) : List (List Char) :=
  (splitSp acc).drop ((splitSp acc).length - 3)

/-- The seam scan of `transcribeAudioChunked`
(src/src/hooks/useChunkedTranscription.ts, lines 165-170):
`let startIdx = 0; for (j = 0; j < Math.min(3, words.length); j++) if
(lastWords.includes(words[j])) startIdx = j + 1`. -/
def dedupStart (words lastWords : List (List Char)) : Nat :=
  (List.range (min 3 words.length)).foldl
    (fun s j => if words.getD j [] ∈ lastWords then j + 1 else s) 0

/-- One iteration of the transcript-accumulation in `transcribeAudioChunked`
(src/src/hooks/useChunkedTranscription.ts, lines 159-175) for a successful
chunk `i` with text `t`: when `i > 0` and both the chunk text and the
accumulated transcript are non-empty, de-duplicate at the seam and append
`' ' + words.slice(startIdx).join(' ')`; otherwise append the text directly. -/
def stitchAppend (i : Nat) (acc t : List Char) : List Char :=
  if 0 < i ∧ t ≠ [] ∧ acc ≠ [] then
    acc ++ ' ' :: joinSp ((splitSp t).drop (dedupStart (splitSp t) (lastWindow acc)))
  else acc ++ t

/-- The chunk loop of `transcribeAudioChunked`
(src/src/hooks/useChunkedTranscription.ts, lines 149-185): before each chunk
the cancellation signal is checked (`throw 'Transcription cancelled'`); a
failed chunk (`none`) contributes no text and processing continues; a
successful chunk is stitched into the accumulator.  Also returns the list of
chunk indices whose transcription call was started. -/
def chunkLoopGo (aborted : Nat → Bool) :
    List (Option (List Char)) → Nat → List Char → List Nat →
      Except (List Char) (List Char) × List Nat
  | [], _, acc, att => (.ok acc, att)
  | chunk :: rest, i, acc, att =>
    if aborted i then (.error "Transcription cancelled".toList, att)
    else
      match chunk with
      | some t => chunkLoopGo aborted rest (i + 1) (stitchAppend i acc t) (att ++ [i])
      | none => chunkLoopGo aborted rest (i + 1) acc (att ++ [i])

/-- The stitched transcript of a run with no cancellation: fold of
`stitchAppend` over the per-chunk results in index order (`none` = failed
chunk, skipped; `some t` = chunk text). -/
def stitchTexts : List (Option (List Char)) → Nat → List Char → List Char
  | [], _, acc => acc
  | none :: rest, i, acc => stitchTexts rest (i + 1) acc
  | some t :: rest, i, acc => stitchTexts rest (i + 1) (stitchAppend i acc t)

/-- Stitched transcript of a full run started with an empty accumulator. -/
def stitchRun (ts : List (Option (List Char))) : List Char :=
  stitchTexts ts 0 []

/-- Result record built at the end of `transcribeAudioChunked`
(src/src/hooks/useChunkedTranscription.ts, lines 190-200), restricted to the
fields the claims speak about. -/
structure ChunkRunResult where
  status : String
  transcribedText : List Char
  wordCount : Nat
deriving DecidableEq, Repr

/-- `transcribeAudioChunked` (src/src/hooks/useChunkedTranscription.ts,
lines 124-218) as a function of the cancellation signal and the per-chunk
transcription outcomes: runs the chunk loop; on normal exhaustion of the
chunks it always builds a result with `status: 'completed'`,
`transcribedText = finalTranscript.trim()` and the whitespace word count;
a thrown cancellation propagates as an error. -/
def transcribeAudioChunked (aborted : Nat → Bool) (ts : List (Option (List Char))) :
    Except (List Char) ChunkRunResult :=
  match (chunkLoopGo aborted ts 0 [] []).1 with
  | .error e => .error e
  | .ok finalTranscript =>
      .ok { status := "completed"
            transcribedText := trimChars finalTranscript
            wordCount := if finalTranscript = [] then 0 else countWords finalTranscript }

/-- Comparison definition following the spec's words for claim C2: the plain
concatenation of the non-failed segment texts in order (with the source's
spacing: a single space between two non-empty pieces), with no seam
de-duplication applied to any segment. -/
def concatTexts : List (Option (List Char)) → List Char → List Char
  | [], acc => acc
  | none :: rest, acc => concatTexts rest acc
  | some t :: rest, acc =>
      concatTexts rest (if t ≠ [] ∧ acc ≠ [] then acc ++ ' ' :: t else acc ++ t)

/-- Decides whether a run never triggers the seam word-match: mirrors
`stitchTexts` and checks that at every de-duplication step the computed
`startIdx` is 0. -/
def noSeamMatch : List (Option (List Char)) → Nat → List Char → Bool
  | [], _, _ => true
  | none :: rest, i, acc => noSeamMatch rest (i + 1) acc
  | some t :: rest, i, acc =>
      (if 0 < i ∧ t ≠ [] ∧ acc ≠ [] then
        decide (dedupStart (splitSp t) (lastWindow acc) = 0)
      else true)
      && noSeamMatch rest (i + 1) (stitchAppend i acc t)

theorem foldl_seam_zero (words win : List (List Char)) :
    ∀ m, (∀ j, j < m → words.getD j [] ∉ win) →
      (List.range m).foldl (fun s j => if words.getD j [] ∈ win then j + 1 else s) 0 = 0 := by
  intro m
  induction m with
  | zero => intro h; rfl
  | succ n ih =>
    intro h
    rw [List.range_succ, List.foldl_append, ih (fun j hj => h j (by omega))]
    simp only [List.foldl_cons, List.foldl_nil]
    rw [if_neg (h n (by omega))]

theorem foldl_seam_last (words win : List (List Char)) (J : Nat)
    (hmem : words.getD J [] ∈ win) :
    ∀ m, J < m → (∀ j, J < j → j < m → words.getD j [] ∉ win) →
      (List.range m).foldl (fun s j => if words.getD j [] ∈ win then j + 1 else s) 0 = J + 1 := by
  intro m
  induction m with
  | zero => intro hJ _; omega
  | succ n ih =>
    intro hJ hmax
    rw [List.range_succ, List.foldl_append]
    simp only [List.foldl_cons, List.foldl_nil]
    rcases Nat.lt_or_ge J n with hlt | hge
    · rw [if_neg (hmax n hlt (by omega)), ih hlt (fun j h1 h2 => hmax j h1 (by omega))]
    · have : J = n := by omega
      subst this
      rw [if_pos hmem]

theorem dedupStart_no_match (words win : List (List Char))
    (h : ∀ j, j < min 3 words.length → words.getD j [] ∉ win) :
    dedupStart words win = 0 :=
  foldl_seam_zero words win (min 3 words.length) h

theorem dedupStart_last_match (words win : List (List Char)) (J : Nat)
    (hJ : J < min 3 words.length) (hmem : words.getD J [] ∈ win)
    (hmax : ∀ j, J < j → j < min 3 words.length → words.getD j [] ∉ win) :
    dedupStart words win = J + 1 :=
  foldl_seam_last words win J hmem (min 3 words.length) hJ hmax

/-- Claim C3: for a non-first (`0 < i`), non-failed segment with non-empty
text `t` and non-empty accumulated transcript `acc`, the stitcher tokenizes
`t` into words, scans its first `min 3 words.length` words against the last
3 accumulated words, and: if `J` is the last position (0-indexed, `J < 3`)
whose word occurs in that trailing window, it drops words `0..J` and appends
only the remainder (with a space); if no scanned word occurs there, it
appends the whole text (with a space). -/
theorem stitchAppend_seam_dedup (i : Nat) (acc t : List Char)
    (hi : 0 < i) (ht : t ≠ []) (ha : acc ≠ []) :
    (∀ J, J < min 3 (splitSp t).length → (splitSp t).getD J [] ∈ lastWindow acc →
      (∀ j, J < j → j < min 3 (splitSp t).length → (splitSp t).getD j [] ∉ lastWindow acc) →
      stitchAppend i acc t = acc ++ ' ' :: joinSp ((splitSp t).drop (J + 1)))
    ∧ ((∀ j, j < min 3 (splitSp t).length → (splitSp t).getD j [] ∉ lastWindow acc) →
      stitchAppend i acc t = acc ++ ' ' :: t) := by
  constructor
  · intro J hJ hmem hmax
    unfold stitchAppend
    rw [if_pos ⟨hi, ht, ha⟩, dedupStart_last_match (splitSp t) (lastWindow acc) J hJ hmem hmax]
  · intro hnone
    unfold stitchAppend
    rw [if_pos ⟨hi, ht, ha⟩, dedupStart_no_match (splitSp t) (lastWindow acc) hnone,
      List.drop_zero, joinSp_splitSp]

/-- Witness for C3 on the spec's Scenario 5 texts: the last matching scan
position is `J = 1` (`"bom"` occurs in the trailing window, `"e"` does not),
so words 0 and 1 are dropped and only `" e continuamos"` is appended. -/
theorem stitchAppend_seam_dedup_witness :
    stitchAppend 1 "e o dia estava bom".toList "estava bom e continuamos".toList
      = "e o dia estava bom".toList
        ++ ' ' :: joinSp ((splitSp "estava bom e continuamos".toList).drop 2) :=
  (stitchAppend_seam_dedup 1 "e o dia estava bom".toList "estava bom e continuamos".toList
      (by decide) (by decide) (by decide)).1 1 (by decide) (by decide)
    (by intro j h1 h2
        have hj : j = 2 := by simp at h2; omega
        subst hj
        decide)

theorem stitchTexts_eq_concat (ts : List (Option (List Char))) :
    ∀ i acc, (0 < i ∨ acc = []) → noSeamMatch ts i acc = true →
      stitchTexts ts i acc = concatTexts ts acc := by
  induction ts with
  | nil => intro i acc h0 hns; rfl
  | cons chunk rest ih =>
    intro i acc h0 hns
    cases chunk with
    | none =>
      simp only [stitchTexts, concatTexts, noSeamMatch] at hns ⊢
      exact ih (i + 1) acc (Or.inl (by omega)) hns
    | some t =>
      simp only [stitchTexts, concatTexts, noSeamMatch, Bool.and_eq_true] at hns ⊢
      obtain ⟨hcond, hrest⟩ := hns
      have hstep : stitchAppend i acc t = if t ≠ [] ∧ acc ≠ [] then acc ++ ' ' :: t else acc ++ t := by
        by_cases hc : 0 < i ∧ t ≠ [] ∧ acc ≠ []
        · rw [if_pos hc] at hcond
          have hz : dedupStart (splitSp t) (lastWindow acc) = 0 := by
            simpa using hcond
          unfold stitchAppend
          rw [if_pos hc, hz, List.drop_zero, joinSp_splitSp, if_pos ⟨hc.2.1, hc.2.2⟩]
        · unfold stitchAppend
          rw [if_neg hc]
          rcases h0 with h0 | h0
          · have : ¬(t ≠ [] ∧ acc ≠ []) := fun hctr => hc ⟨h0, hctr⟩
            rw [if_neg this]
          · subst h0
            rw [if_neg (by simp)]
      rw [hstep] at hrest ⊢
      exact ih (i + 1) _ (Or.inl (by omega)) hrest

/-- Claim C2 (amended): the stitcher takes no overlap parameter at all — the
seam de-duplication is applied to every non-first segment with non-empty text
whenever the accumulated transcript is non-empty, regardless of the overlap
setting.  The stitched text equals the plain in-order concatenation of the
non-failed segment texts exactly when no scanned seam word of any segment
occurs in the previous trailing window (`noSeamMatch`). -/
theorem stitchRun_eq_concat_of_noSeamMatch (ts : List (Option (List Char)))
    (h : noSeamMatch ts 0 [] = true) :
    stitchRun ts = concatTexts ts [] :=
  stitchTexts_eq_concat ts 0 [] (Or.inr rfl) h

/-- Witness for C2 (amended) at a concrete input with no seam word match. -/
theorem stitchRun_eq_concat_witness :
    stitchRun [some "a b".toList, some "c d".toList]
      = concatTexts [some "a b".toList, some "c d".toList] [] :=
  stitchRun_eq_concat_of_noSeamMatch [some "a b".toList, some "c d".toList] (by decide)

/-- Counterexample to claim C2 as stated: the segments `"a b"` and `"b c"`
(both non-failed) stitch to `"a b c"` — the seam de-duplication dropped the
leading `"b"` even though the source's stitcher has no overlap parameter to
set to zero (its `OVERLAP_DURATION` constant is never consulted by the
stitch branch).  The plain concatenation of the segment texts, with or
without a separating space, is different. -/
theorem stitchRun_overlap_counterexample :
    stitchRun [some "a b".toList, some "b c".toList] = "a b c".toList
    ∧ "a b c".toList ≠ "a b".toList ++ "b c".toList
    ∧ "a b c".toList ≠ "a b".toList ++ ' ' :: "b c".toList := by
  refine ⟨by decide, by decide, by decide⟩

theorem chunkLoopGo_all_none (ts : List (Option (List Char))) :
    ∀ i acc att, (∀ x ∈ ts, x = none) →
      (chunkLoopGo (fun _ => false) ts i acc att).1 = .ok acc := by
  induction ts with
  | nil => intro i acc att h; rfl
  | cons chunk rest ih =>
    intro i acc att h
    have hc : chunk = none := h chunk (List.mem_cons_self _ _)
    subst hc
    simp only [chunkLoopGo, if_neg (by simp : ¬((fun (_ : Nat) => false) i = true))]
    exact ih (i + 1) acc (att ++ [i]) (fun x hx => h x (List.mem_cons_of_mem _ hx))

/-- Claim C1 (amended): when every segment's transcription attempt fails (and
the run is not cancelled), `transcribeAudioChunked` still resolves as a
completed result — `status = 'completed'`, empty transcribed text, word count
0 — rather than surfacing a run-level failure. -/
theorem transcribeAudioChunked_all_fail_completed (ts : List (Option (List Char)))
    (h : ∀ x ∈ ts, x = none) :
    transcribeAudioChunked (fun _ => false) ts
      = .ok { status := "completed", transcribedText := [], wordCount := 0 } := by
  unfold transcribeAudioChunked
  rw [chunkLoopGo_all_none ts 0 [] [] h]
  rfl

/-- Witness for C1 (amended) at a concrete two-segment all-failing run. -/
theorem transcribeAudioChunked_all_fail_witness :
    transcribeAudioChunked (fun _ => false) [none, none]
      = .ok { status := "completed", transcribedText := [], wordCount := 0 } :=
  transcribeAudioChunked_all_fail_completed [none, none] (by decide)

/-- Counterexample to claim C1 as stated: a two-segment run in which both
segment transcriptions fail is returned as `.ok` with `status = 'completed'`
and an empty transcript — it is not surfaced as a run-level failure. -/
theorem transcribeAudioChunked_all_fail_counterexample :
    transcribeAudioChunked (fun _ => false) [none, none]
      = .ok { status := "completed", transcribedText := [], wordCount := 0 } := by
  rfl

theorem chunkLoopGo_error_of_aborted (aborted : Nat → Bool) :
    ∀ (ts : List (Option (List Char))) i acc att,
      (∃ j, j < ts.length ∧ aborted (i + j) = true) →
      (chunkLoopGo aborted ts i acc att).1 = .error "Transcription cancelled".toList := by
  intro ts
  induction ts with
  | nil => intro i acc att h; obtain ⟨j, hj, _⟩ := h; simp at hj
  | cons chunk rest ih =>
    intro i acc att h
    by_cases hab : aborted i = true
    · cases chunk <;> simp [chunkLoopGo, hab]
    · have hstep : ∃ j, j < rest.length ∧ aborted (i + 1 + j) = true := by
        obtain ⟨j, hj, habj⟩ := h
        cases j with
        | zero => simp at habj; exact absurd habj hab
        | succ j' =>
          refine ⟨j', by simpa using hj, ?_⟩
          have : i + 1 + j' = i + (j' + 1) := by ring
          rw [this]; exact habj
      cases chunk <;>
        · simp only [chunkLoopGo, if_neg hab]
          exact ih (i + 1) _ _ hstep

theorem chunkLoopGo_attempted_not_aborted (aborted : Nat → Bool) :
    ∀ (ts : List (Option (List Char))) i acc att,
      (∀ x ∈ att, aborted x = false) →
      ∀ x ∈ (chunkLoopGo aborted ts i acc att).2, aborted x = false := by
  intro ts
  induction ts with
  | nil => intro i acc att h; exact h
  | cons chunk rest ih =>
    intro i acc att h
    by_cases hab : aborted i = true
    · cases chunk <;> · simp only [chunkLoopGo, if_pos hab]; exact h
    · have hatt : ∀ x ∈ att ++ [i], aborted x = false := by
        intro x hx
        rcases List.mem_append.mp hx with hx | hx
        · exact h x hx
        · simp at hx; subst hx; simpa using hab
      cases chunk <;>
        · simp only [chunkLoopGo, if_neg hab]
          exact ih (i + 1) _ _ hatt

/-- Claim C9: once the (monotone) cancellation signal is set at some segment
index `k` within the run, the chunk loop ends in the thrown
`'Transcription cancelled'` error — the partial transcript accumulated so far
is not returned — and every segment whose transcription call was actually
started passed the pre-segment signal check (the signal was unset there). -/
theorem chunkLoop_cancellation (aborted : Nat → Bool) (ts : List (Option (List Char))) (k : Nat)
    (_hmono : ∀ i j, i ≤ j → aborted i = true → aborted j = true)
    (hk : aborted k = true) (hkn : k < ts.length) :
    (chunkLoopGo aborted ts 0 [] []).1 = .error "Transcription cancelled".toList
    ∧ ∀ i ∈ (chunkLoopGo aborted ts 0 [] []).2, aborted i = false := by
  constructor
  · exact chunkLoopGo_error_of_aborted aborted ts 0 [] [] ⟨k, hkn, by simpa using hk⟩
  · exact chunkLoopGo_attempted_not_aborted aborted ts 0 [] [] (by intro x hx; simp at hx)

/-- Witness for C9: a four-segment run whose signal becomes set from index 2
on ends in the cancellation error. -/
theorem chunkLoop_cancellation_witness :
    (chunkLoopGo (fun i => decide (2 ≤ i))
        [some "a".toList, none, some "b".toList, some "c".toList] 0 [] []).1
      = .error "Transcription cancelled".toList :=
  (chunkLoop_cancellation (fun i => decide (2 ≤ i))
      [some "a".toList, none, some "b".toList, some "c".toList] 2
      (by intro i j hij h; simp at h ⊢; omega) (by decide) (by decide)).1

end Stitcher

section Confidence

/-- The `dialect` field of `ProcessingOptions` (src/src/utils/portugueseNLP.ts):
`'pt-PT' | 'pt-MZ'`. -/
inductive Dialect
  | ptPT
  | ptMZ
deriving DecidableEq

/-- `ProcessingOptions` of src/src/utils/portugueseNLP.ts. -/
structure ProcessingOptions where
  dialect : Dialect
  enablePunctuation : Bool
  enableFormatting : Bool
  enableStructure : Bool
deriving DecidableEq

/-- The confidence computation of `PortugueseProcessor.processTranscript`
(src/src/utils/portugueseNLP.ts, lines 44-76): starts at the base 0.8, adds
0.1 when punctuation is enabled, 0.05 when structure detection is enabled,
0.05 when formatting is enabled, and returns `Math.min(confidence, 1.0)`.
None of the text-transforming passes touches the confidence, so it depends
only on the options. -/
def processTranscriptConfidence (options : ProcessingOptions) : ℚ :=
  let confidence : ℚ := 0.8
  let confidence := if options.enablePunctuation then confidence + 0.1 else confidence
  let confidence := if options.enableStructure then confidence + 0.05 else confidence
  let confidence := if options.enableFormatting then confidence + 0.05 else confidence
  min confidence 1.0

/-- The "more passes enabled" order on processing options. -/
def optionsLE (o₁ o₂ : ProcessingOptions) : Prop :=
  (o₁.enablePunctuation = true → o₂.enablePunctuation = true)
  ∧ (o₁.enableStructure = true → o₂.enableStructure = true)
  ∧ (o₁.enableFormatting = true → o₂.enableFormatting = true)

/-- Claim C7: the confidence score equals the fixed base 0.8 plus a fixed
increment per enabled pass (0.1 punctuation, 0.05 structure, 0.05 formatting),
clamped at 1; it lies in `[0, 1]`; and enabling additional passes never
decreases it. -/
theorem processTranscriptConfidence_spec (o : ProcessingOptions) :
    processTranscriptConfidence o
      = min (0.8 + (if o.enablePunctuation then (0.1 : ℚ) else 0)
              + (if o.enableStructure then (0.05 : ℚ) else 0)
              + (if o.enableFormatting then (0.05 : ℚ) else 0)) 1
    ∧ 0 ≤ processTranscriptConfidence o
    ∧ processTranscriptConfidence o ≤ 1
    ∧ ∀ o₂, optionsLE o o₂ → processTranscriptConfidence o ≤ processTranscriptConfidence o₂ := by
  obtain ⟨d, p, f, st⟩ := o
  refine ⟨?_, ?_, ?_, ?_⟩
  · cases p <;> cases st <;> cases f <;> norm_num [processTranscriptConfidence]
  · cases p <;> cases st <;> cases f <;> norm_num [processTranscriptConfidence]
  · cases p <;> cases st <;> cases f <;> norm_num [processTranscriptConfidence]
  · rintro ⟨d₂, p₂, f₂, st₂⟩ ⟨h1, h2, h3⟩
    simp only at h1 h2 h3
    cases p <;> cases st <;> cases f <;> cases p₂ <;> cases st₂ <;> cases f₂ <;>
      simp_all <;> norm_num [processTranscriptConfidence]

/-- Witness for C7: enabling all passes relative to none never lowers the
confidence. -/
theorem processTranscriptConfidence_witness :
    processTranscriptConfidence ⟨Dialect.ptPT, false, false, false⟩
      ≤ processTranscriptConfidence ⟨Dialect.ptPT, true, true, true⟩ := by
  refine (processTranscriptConfidence_spec ⟨Dialect.ptPT, false, false, false⟩).2.2.2
    ⟨Dialect.ptPT, true, true, true⟩ ?_
  exact ⟨fun _ => rfl, fun _ => rfl, fun _ => rfl⟩

end Confidence

section Orchestrator

/-- Processing path chosen by `LocalTranscriptionService.transcribeAudio`. -/
inductive TranscribePathKind
  | single
  | chunked
deriving DecidableEq

/-- The chunking decision of `LocalTranscriptionService.transcribeAudio`
(src/src/utils/localTranscriptionService.ts, lines 113-124):
`if (audioDuration > 180) transcribeInChunks(...) else transcribeSingle(...)`,
with the duration measured in seconds. -/
def transcribeAudioDispatch (audioDuration : ℚ) : TranscribePathKind :=
  if audioDuration > 180 then .chunked else .single

/-- Claim C8: the chunked splitting-and-segment-transcription path is entered
exactly when the audio duration exceeds 180 seconds; otherwise the whole
audio is transcribed as a single segment. -/
theorem transcribeAudioDispatch_threshold (d : ℚ) :
    (transcribeAudioDispatch d = .chunked ↔ 180 < d)
    ∧ (transcribeAudioDispatch d = .single ↔ d ≤ 180) := by
  unfold transcribeAudioDispatch
  by_cases h : 180 < d
  · rw [if_pos h]
    exact ⟨⟨fun _ => h, fun _ => rfl⟩,
           ⟨fun hc => absurd hc (by simp), fun hle => absurd h (not_lt.mpr hle)⟩⟩
  · rw [if_neg h]
    exact ⟨⟨fun hc => absurd hc (by simp), fun hd => absurd hd h⟩,
           ⟨fun _ => not_lt.mp h, fun _ => rfl⟩⟩

end Orchestrator

section WavEncoder

/-- `Math.max(-1, Math.min(1, sample))` of `audioBufferToWav`
(src/src/utils/audioSplitter.ts line 104, identically in
useChunkedTranscription.ts and localTranscriptionService.ts). -/
def clampSample (x : ℚ) : ℚ := max (-1) (min 1 x)

/-- Truncation toward zero, as applied by `DataView.setInt16` to a
non-integral number (ECMAScript ToIntegerOrInfinity). -/
def truncQ (x : ℚ) : ℤ := if 0 ≤ x then ⌊x⌋ else ⌈x⌉

/-- The per-sample 16-bit encoding of `audioBufferToWav`
(src/src/utils/audioSplitter.ts lines 104-105):
`sample < 0 ? sample * 0x8000 : sample * 0x7FFF` after clamping, truncated
by `setInt16`. -/
def encodeSample (x : ℚ) : ℤ :=
  let sample := clampSample x
  if sample < 0 then truncQ (sample * 32768) else truncQ (sample * 32767)

/-- `dataSize = length * blockAlign` with
`blockAlign = numberOfChannels * bytesPerSample` and `bytesPerSample = 2`
(src/src/utils/audioSplitter.ts lines 69-73). -/
def wavDataSize (numberOfChannels length : Nat) : Nat :=
  length * (numberOfChannels * 2)

/-- `bufferSize = 44 + dataSize` (src/src/utils/audioSplitter.ts line 74):
total byte size of the produced WAV blob. -/
def wavBufferSize (numberOfChannels length : Nat) : Nat :=
  44 + wavDataSize numberOfChannels length

/-- The interleaved 16-bit samples written by the data loop of
`audioBufferToWav` (src/src/utils/audioSplitter.ts lines 101-108): for each
frame `i < length`, one encoded sample per channel. -/
def wavSamples (channels : List (List ℚ)) (length : Nat) : List ℤ :=
  (((List.range length).map
    (fun i => channels.map (fun ch => encodeSample (ch.getD i 0))))).flatten

theorem encodeSample_range (x : ℚ) :
    -32768 ≤ encodeSample x ∧ encodeSample x ≤ 32767 := by
  have h1 : -1 ≤ clampSample x := le_max_left _ _
  have h2 : clampSample x ≤ 1 := max_le (by norm_num) (min_le_left _ _)
  by_cases hneg : clampSample x < 0
  · have hv : encodeSample x = ⌈clampSample x * 32768⌉ := by
      unfold encodeSample truncQ
      simp only [if_pos hneg, if_neg (by nlinarith : ¬(0 : ℚ) ≤ clampSample x * 32768)]
    rw [hv]
    constructor
    · have hlow : ((-32768 : ℤ) : ℚ) ≤ clampSample x * 32768 := by push_cast; nlinarith
      calc (-32768 : ℤ) = ⌈((-32768 : ℤ) : ℚ)⌉ := (Int.ceil_intCast _).symm
        _ ≤ ⌈clampSample x * 32768⌉ := Int.ceil_le_ceil hlow
    · have hup : clampSample x * 32768 ≤ (0 : ℚ) := by nlinarith
      have hle : ⌈clampSample x * 32768⌉ ≤ (0 : ℤ) := by
        calc ⌈clampSample x * 32768⌉ ≤ ⌈(0 : ℚ)⌉ := Int.ceil_le_ceil hup
          _ = 0 := Int.ceil_zero
      omega
  · have h0 : (0 : ℚ) ≤ clampSample x := not_lt.mp hneg
    have hv : encodeSample x = ⌊clampSample x * 32767⌋ := by
      unfold encodeSample truncQ
      simp only [if_neg hneg, if_pos (by nlinarith : (0 : ℚ) ≤ clampSample x * 32767)]
    rw [hv]
    constructor
    · have hge : (0 : ℤ) ≤ ⌊clampSample x * 32767⌋ := by
        calc (0 : ℤ) = ⌊(0 : ℚ)⌋ := Int.floor_zero.symm
          _ ≤ ⌊clampSample x * 32767⌋ := Int.floor_le_floor (by nlinarith)
      omega
    · have hup : clampSample x * 32767 ≤ ((32767 : ℤ) : ℚ) := by push_cast; nlinarith
      calc ⌊clampSample x * 32767⌋ ≤ ⌊((32767 : ℤ) : ℚ)⌋ := Int.floor_le_floor hup
        _ = 32767 := Int.floor_intCast _

theorem wavSamples_length (channels : List (List ℚ)) :
    ∀ length, (wavSamples channels length).length = length * channels.length := by
  intro length
  induction length with
  | zero => simp [wavSamples]
  | succ n ih =>
    unfold wavSamples at ih ⊢
    rw [List.range_succ, List.map_append, List.flatten_append, List.length_append, ih]
    simp [Nat.succ_mul]

/-- Claim C10: every 16-bit value encoded by the WAV re-encoder lies in the
signed 16-bit range `[-32768, 32767]` (the samples are clamped to `[-1, 1]`
before scaling), the data loop writes exactly `length × numberOfChannels`
samples, and the produced blob has exactly
`44 + 2 × numberOfChannels × length` bytes. -/
theorem audioBufferToWav_spec (channels : List (List ℚ)) (length : Nat) :
    (∀ v ∈ wavSamples channels length, -32768 ≤ v ∧ v ≤ 32767)
    ∧ (wavSamples channels length).length = length * channels.length
    ∧ wavBufferSize channels.length length = 44 + 2 * channels.length * length := by
  refine ⟨?_, wavSamples_length channels length, ?_⟩
  · intro v hv
    unfold wavSamples at hv
    simp only [List.mem_flatten, List.mem_map, List.mem_range] at hv
    obtain ⟨l, ⟨⟨i, _, rfl⟩, hvl⟩⟩ := hv
    obtain ⟨ch, _, rfl⟩ := List.mem_map.mp hvl
    exact encodeSample_range _
  · unfold wavBufferSize wavDataSize
    ring

/-- Witness for C10: a concrete two-channel, one-frame buffer whose first
sample 3/2 clamps to 1 and encodes to 32767, inside the 16-bit range. -/
theorem audioBufferToWav_spec_witness :
    (-32768 : ℤ) ≤ encodeSample (3 / 2) ∧ encodeSample (3 / 2) ≤ 32767 :=
  (audioBufferToWav_spec [[(3 : ℚ) / 2], [(-7 : ℚ) / 4]] 1).1 (encodeSample (3 / 2))
    (by simp [wavSamples, List.range_succ])

end WavEncoder

section StructureDetection

/-- JavaScript `toLowerCase` restricted to the Latin letters appearing in the
source's patterns: maps `A-Z` and the Latin-1 uppercase range (`À`..`Þ`,
excluding `×`) to their lowercase forms; other characters are unchanged. -/
def toLowerCh (c : Char) : Char :=
  if 'A' ≤ c ∧ c ≤ 'Z' then Char.ofNat (c.toNat + 32)
  else if 0xC0 ≤ c.toNat ∧ c.toNat ≤ 0xDE ∧ c.toNat ≠ 0xD7 then Char.ofNat (c.toNat + 32)
  else c

/-- Lowercased text, as produced by `s.toLowerCase()` on the texts handled
here. -/
def toLowerStr (s : List Char) : List Char := s.map toLowerCh

/-- Whether a list starts with a character satisfying `p`. -/
def headIs (p : Char → Bool) : List Char → Bool
  | [] => false
  | c :: _ => p c

/-- JavaScript regex `\w` (no unicode flag): `[A-Za-z0-9_]`. -/
def isWordCh (c : Char) : Bool :=
  ('a' ≤ c && c ≤ 'z') || ('A' ≤ c && c ≤ 'Z') || ('0' ≤ c && c ≤ '9') || c == '_'

/-- The sentence delimiters of `detectStructure`'s split regex `[.!?]+`
(src/src/utils/portugueseNLP.ts line 104). -/
def isSentDelim (c : Char) : Bool := c == '.' || c == '!' || c == '?'

/-- The first title pattern of `PortugueseProcessor.titlePatterns`
(src/src/utils/portugueseNLP.ts line 23):
`/^(capítulo|secção|parte|título)\s+\w+/i` — a chapter/section marker word,
then at least one whitespace, then at least one word character. -/
def testP1 (s : List Char) : Bool :=
  ["capítulo", "secção", "parte", "título"].any fun w =>
    (w.toList.isPrefixOf (toLowerStr s))
    && headIs isWsB ((toLowerStr s).drop w.toList.length)
    && headIs isWordCh (((toLowerStr s).drop w.toList.length).dropWhile isWsB)

/-- The second title pattern (src/src/utils/portugueseNLP.ts line 24):
`/^(introdução|conclusão|resumo|abstract)/i`. -/
def testP2 (s : List Char) : Bool :=
  ["introdução", "conclusão", "resumo", "abstract"].any fun w =>
    w.toList.isPrefixOf (toLowerStr s)

/-- The uppercase character class of the third title pattern:
`[A-ZÁÀÂÃÉÊÍÓÔÕÚÇ]`. -/
def isUpperPt (c : Char) : Bool :=
  ('A' ≤ c && c ≤ 'Z') || "ÁÀÂÃÉÊÍÓÔÕÚÇ".toList.contains c

/-- The lowercase character class of the third title pattern:
`[a-záàâãéêíóôõúç]`. -/
def isLowerPt (c : Char) : Bool :=
  ('a' ≤ c && c ≤ 'z') || "áàâãéêíóôõúç".toList.contains c

/-- The third title pattern (src/src/utils/portugueseNLP.ts line 25):
`/^[A-ZÁÀÂÃÉÊÍÓÔÕÚÇ][a-záàâãéêíóôõúç\s]{2,30}$/` — an uppercase letter
followed by 2 to 30 lowercase letters or whitespace, matching the whole
sentence. -/
def testP3 : List Char → Bool
  | [] => false
  | c :: rest =>
    isUpperPt c && (decide (2 ≤ rest.length) && decide (rest.length ≤ 30))
      && rest.all (fun d => isLowerPt d || isWsB d)

/-- `this.titlePatterns.some(pattern => pattern.test(sentence))`. -/
def titleMatch (s : List Char) : Bool := testP1 s || testP2 s || testP3 s

/-- `PortugueseProcessor.isTitle` (src/src/utils/portugueseNLP.ts,
lines 193-196): a title pattern matches, or the sentence is short —
fewer than 50 characters and at most 6 space-split words — with no
capitalization requirement. -/
def isTitle (s : List Char) : Bool :=
  titleMatch s || (decide (s.length < 50) && decide ((splitSp s).length ≤ 6))

/-- `PortugueseProcessor.isList` (src/src/utils/portugueseNLP.ts,
lines 198-202): an ordinal marker word prefix (case-insensitive), or
`/^(a|b|c|d|e)\s+/` (case-sensitive), or `/^\d+\s+/`. -/
def isListSent (s : List Char) : Bool :=
  (["primeiro", "segundo", "terceiro", "em seguida", "depois", "finalmente",
    "por último"].any fun w => w.toList.isPrefixOf (toLowerStr s))
  || (match s with
      | a :: b :: _ => (a == 'a' || a == 'b' || a == 'c' || a == 'd' || a == 'e') && isWsB b
      | _ => false)
  || (headIs Char.isDigit s && headIs isWsB (s.dropWhile Char.isDigit))

/-- JavaScript `hay.includes(needle)`: substring containment. -/
def isInfixB (needle : List Char) : List Char → Bool
  | [] => needle.isPrefixOf []
  | c :: rest => needle.isPrefixOf (c :: rest) || isInfixB needle rest

/-- `PortugueseProcessor.isQuote` (src/src/utils/portugueseNLP.ts,
lines 204-208): the lowercased sentence contains one of the reported-speech
indicators. -/
def isQuote (s : List Char) : Bool :=
  ["disse", "afirmou", "declarou", "mencionou", "referiu", "segundo",
   "conforme", "de acordo com", "como disse"].any fun ind =>
    isInfixB (toLowerStr ind.toList) (toLowerStr s)

/-- `PortugueseProcessor.transitionWords` (src/src/utils/portugueseNLP.ts,
lines 33-37). -/
def transitionWords : List String :=
  ["portanto", "contudo", "todavia", "entretanto", "assim",
   "consequentemente", "por conseguinte", "além disso",
   "por outro lado", "em primeiro lugar", "finalmente"]

/-- `PortugueseProcessor.isTopicChange` (src/src/utils/portugueseNLP.ts,
lines 210-216): false at the last sentence; otherwise the (raw, untrimmed)
next sentence starts with a transition word, case-insensitively. -/
def isTopicChange (_current : List Char) : Option (List Char) → Bool
  | none => false
  | some nxt => transitionWords.any fun w =>
      (toLowerStr w.toList).isPrefixOf (toLowerStr nxt)

/-- Generic separator join, as JavaScript `arr.join(sep)`. -/
def joinWith (sep : List Char) : List (List Char) → List Char
  | [] => []
  | [w] => w
  | w :: ws => w ++ sep ++ joinWith sep ws

/-- The sentence list of `detectStructure`
(src/src/utils/portugueseNLP.ts line 104):
`text.split(/[.!?]+/).filter(s => s.trim().length > 0)`. -/
def sentencesOf (text : List Char) : List (List Char) :=
  (splitRuns isSentDelim text).filter (fun s => 0 < (trimChars s).length)

/-- The `structure` statistics object of src/src/utils/portugueseNLP.ts. -/
structure StructStats where
  paragraphs : Nat
  headings : Nat
  lists : Nat
  quotes : Nat
deriving DecidableEq, Repr

/-- The paragraph flush of `detectStructure`: if the current paragraph buffer
is non-empty, push `currentParagraph.join('. ') + '.'` and increment the
paragraph count. -/
def flushPar (ps cur : List (List Char)) (st : StructStats) :
    List (List Char) × StructStats :=
  if cur ≠ [] then
    (ps ++ [joinWith ['.', ' '] cur ++ ['.']], { st with paragraphs := st.paragraphs + 1 })
  else (ps, st)

/-- The sentence loop of `PortugueseProcessor.detectStructure`
(src/src/utils/portugueseNLP.ts, lines 109-170): each sentence is trimmed and
classified in priority order title → list → quote → regular; title/list/quote
flush the current paragraph and emit `# `/`## `, `• `, or a quoted line and
bump the matching counter; a regular sentence joins the paragraph buffer,
which is flushed (with an empty spacer line) when the raw next sentence
starts with a transition word; a trailing buffer is flushed at the end. -/
def detectAux : List (List Char) → List (List Char) → List (List Char) → StructStats →
    List (List Char) × StructStats
  | [], ps, cur, st => flushPar ps cur st
  | raw :: rest, ps, cur, st =>
    let sentence := trimChars raw
    if isTitle sentence then
      let fp := flushPar ps cur st
      if decide (sentence.length < 50) && titleMatch sentence then
        detectAux rest (fp.1 ++ ['#' :: ' ' :: sentence]) []
          { fp.2 with headings := fp.2.headings + 1 }
      else
        detectAux rest (fp.1 ++ ['#' :: '#' :: ' ' :: sentence]) []
          { fp.2 with headings := fp.2.headings + 1 }
    else if isListSent sentence then
      let fp := flushPar ps cur st
      detectAux rest (fp.1 ++ ['•' :: ' ' :: sentence]) []
        { fp.2 with lists := fp.2.lists + 1 }
    else if isQuote sentence then
      let fp := flushPar ps cur st
      detectAux rest (fp.1 ++ ['"' :: sentence ++ ['"']]) []
        { fp.2 with quotes := fp.2.quotes + 1 }
    else
      if isTopicChange sentence rest.head? then
        detectAux rest (ps ++ [joinWith ['.', ' '] (cur ++ [sentence]) ++ ['.']] ++ [[]]) []
          { st with paragraphs := st.paragraphs + 1 }
      else
        detectAux rest ps (cur ++ [sentence]) st

/-- The emitted line list of `detectStructure` before the final
`join('\n\n')`. -/
def detectOutLines (text : List Char) : List (List Char) :=
  (detectAux (sentencesOf text) [] [] ⟨0, 0, 0, 0⟩).1

/-- `PortugueseProcessor.detectStructure` (src/src/utils/portugueseNLP.ts,
lines 102-173): the processed text joined with blank lines, together with the
updated structure statistics (counts start from 0 as in `processTranscript`). -/
def detectStructure (text : List Char) : List Char × StructStats :=
  (joinWith ['\n', '\n'] (detectOutLines text), (detectAux (sentencesOf text) [] [] ⟨0, 0, 0, 0⟩).2)

/-- Comparison definition following claim C6's words: heading iff the
sentence matches one of the lexical title patterns or is a *capitalized*
short form of at most 50 characters and at most 6 words. -/
def isTitleSpec (s : List Char) : Bool :=
  titleMatch s
  || (headIs isUpperPt s && decide (s.length ≤ 50) && decide ((splitSp s).length ≤ 6))

theorem flushPar_headings (ps cur : List (List Char)) (st : StructStats) :
    (flushPar ps cur st).2.headings = st.headings := by
  unfold flushPar; split <;> rfl

theorem flushPar_mem (ps cur : List (List Char)) (st : StructStats)
    (x : List Char) (hx : x ∈ ps) : x ∈ (flushPar ps cur st).1 := by
  unfold flushPar; split
  · exact List.mem_append_left _ hx
  · exact hx

theorem detectAux_headings_count :
    ∀ (l ps cur : List (List Char)) (st : StructStats),
      (detectAux l ps cur st).2.headings
        = st.headings + l.countP (fun raw => isTitle (trimChars raw)) := by
  intro l
  induction l with
  | nil =>
    intro ps cur st
    simp [detectAux, flushPar_headings]
  | cons raw rest ih =>
    intro ps cur st
    simp only [detectAux]
    by_cases ht : isTitle (trimChars raw) = true
    · rw [if_pos ht]
      split <;>
        · rw [ih]
          simp [List.countP_cons, ht, flushPar_headings]
          omega
    · rw [if_neg ht]
      split
      · rw [ih]
        simp [List.countP_cons, ht, flushPar_headings]
      · split
        · rw [ih]
          simp [List.countP_cons, ht, flushPar_headings]
        · split
          · rw [ih]
            simp [List.countP_cons, ht]
          · rw [ih]
            simp [List.countP_cons, ht]

theorem detectAux_mem_mono :
    ∀ (l ps cur : List (List Char)) (st : StructStats) (x : List Char),
      x ∈ ps → x ∈ (detectAux l ps cur st).1 := by
  intro l
  induction l with
  | nil => intro ps cur st x hx; exact flushPar_mem ps cur st x hx
  | cons raw rest ih =>
    intro ps cur st x hx
    simp only [detectAux]
    split
    · split
      · exact ih _ _ _ x (List.mem_append_left _ (flushPar_mem ps cur st x hx))
      · exact ih _ _ _ x (List.mem_append_left _ (flushPar_mem ps cur st x hx))
    · split
      · exact ih _ _ _ x (List.mem_append_left _ (flushPar_mem ps cur st x hx))
      · split
        · exact ih _ _ _ x (List.mem_append_left _ (flushPar_mem ps cur st x hx))
        · split
          · exact ih _ _ _ x (List.mem_append_left _ (List.mem_append_left _ hx))
          · exact ih _ _ _ x hx

theorem detectAux_title_mem :
    ∀ (l ps cur : List (List Char)) (st : StructStats) (raw : List Char),
      raw ∈ l → isTitle (trimChars raw) = true →
      ('#' :: ' ' :: trimChars raw) ∈ (detectAux l ps cur st).1
      ∨ ('#' :: '#' :: ' ' :: trimChars raw) ∈ (detectAux l ps cur st).1 := by
  intro l
  induction l with
  | nil => intro ps cur st raw h; simp at h
  | cons hd rest ih =>
    intro ps cur st raw hmem htitle
    rcases List.mem_cons.mp hmem with heq | htail
    · subst heq
      simp only [detectAux]
      rw [if_pos htitle]
      split
      · exact Or.inl (detectAux_mem_mono rest _ [] _ _
          (List.mem_append_right _ (List.mem_singleton.mpr rfl)))
      · exact Or.inr (detectAux_mem_mono rest _ [] _ _
          (List.mem_append_right _ (List.mem_singleton.mpr rfl)))
    · simp only [detectAux]
      split
      · split
        · exact ih _ [] _ raw htail htitle
        · exact ih _ [] _ raw htail htitle
      · split
        · exact ih _ [] _ raw htail htitle
        · split
          · exact ih _ [] _ raw htail htitle
          · split
            · exact ih _ [] _ raw htail htitle
            · exact ih _ _ _ raw htail htitle

/-- Claim C6 (amended): in structure detection a sentence is classified and
emitted as a heading (after flushing the current paragraph) if and only if
`isTitle` holds — it matches one of the lexical title patterns, or it is a
short form of fewer than 50 characters and at most 6 space-split words,
*capitalized or not*: the heading count equals the number of sentences
satisfying `isTitle`, and each such sentence is emitted prefixed with
`"# "` or `"## "`. -/
theorem detectStructure_headings_iff (text : List Char) :
    (detectStructure text).2.headings
      = (sentencesOf text).countP (fun raw => isTitle (trimChars raw))
    ∧ ∀ raw ∈ sentencesOf text, isTitle (trimChars raw) = true →
        ('#' :: ' ' :: trimChars raw) ∈ detectOutLines text
        ∨ ('#' :: '#' :: ' ' :: trimChars raw) ∈ detectOutLines text := by
  constructor
  · have h := detectAux_headings_count (sentencesOf text) [] [] ⟨0, 0, 0, 0⟩
    simpa [detectStructure] using h
  · intro raw hmem htitle
    exact detectAux_title_mem (sentencesOf text) [] [] ⟨0, 0, 0, 0⟩ raw hmem htitle

/-- Witness for C6 (amended): the spec's Scenario 4 sentence `"Introdução"`
is emitted as a heading. -/
theorem detectStructure_headings_iff_witness :
    ('#' :: ' ' :: trimChars "Introdução".toList) ∈ detectOutLines "Introdução".toList
    ∨ ('#' :: '#' :: ' ' :: trimChars "Introdução".toList) ∈ detectOutLines "Introdução".toList :=
  (detectStructure_headings_iff "Introdução".toList).2 "Introdução".toList
    (by decide) (by decide)

/-- Counterexample to claim C6 as stated: the sentence `"bom dia amigos"` is
lowercase, so it is neither a lexical title pattern match nor a *capitalized*
short form (`isTitleSpec` is false), yet `detectStructure` classifies and
emits it as a heading (`"## bom dia amigos"`, heading count 1), because the
source's short-form disjunct `sentence.length < 50 && words <= 6` has no
capitalization requirement. -/
theorem detectStructure_headings_counterexample :
    (detectStructure "bom dia amigos".toList).2.headings = 1
    ∧ ('#' :: '#' :: ' ' :: "bom dia amigos".toList) ∈ detectOutLines "bom dia amigos".toList
    ∧ isTitleSpec "bom dia amigos".toList = false := by
  refine ⟨by decide, by decide, by decide⟩

end StructureDetection
